import Mathlib

/-!
Verification of the resize/packaging logic of the two Streamlit pages in
this repository: the percentage-based image resizer with ZIP packaging
(pages/(1) Image Resizer.py) and the PDF embedded-image recompression
pipeline (pages/(2) PDF Resizer.py, the pypdf-based implementation).

Conventions of the embedding:
* Python integers are modelled as Nat; Python's floor division // on
  nonnegative integers is Nat division.
* The float expressions max_side / long_side, w * scale and the
  kilobyte ratio out_kb / in_size_kb are modelled exactly over Q (or as
  Nat floor of the exact rational); IEEE rounding of Python floats is not
  modelled.
* Filenames are lists of characters; Python str.lower() is modelled
  character-wise by Char.toLower (both lower-case only the basic Latin
  letters on the inputs of interest).
* Fallible library calls (PIL decode, pypdf image replace) are modelled
  by explicit success flags on the input data, since their failure
  behaviour, not their pixel output, is what the claims are about.
-/

/-! ## Image Resizer: pages/(1) Image Resizer.py -/

/-- Embeds _resize_image: new_size = (max(1, w * pct // 100), max(1, h * pct // 100)). -/
def resize_image (w h pct : Nat) : Nat × Nat :=
  (max 1 (w * pct / 100), max 1 (h * pct / 100))

/-- Python s.split(sep) for a single-character separator: the list of
segments between occurrences of sep; n separators give n+1 segments. -/
def pySplit (sep : Char) : List Char → List (List Char)
  | [] => [[]]
  | c :: cs =>
    match pySplit sep cs with
    | [] => [[]]
    | s :: rest => if c = sep then [] :: s :: rest else (c :: s) :: rest

/-- Python name.split(".")[-1]: the last segment of the split. -/
def lastSegment (sep : Char) (name : List Char) : List Char :=
  (pySplit sep name).getLastD []

/-- The extension computed by _infer_format_from_name:
ext = name.split(".")[-1].lower() if "." in name else "". -/
def extOf (name : List Char) : List Char :=
  if '.' ∈ name then (lastSegment '.' name).map Char.toLower else []

/-- The extension dictionary of _infer_format_from_name with its
default: jpg/jpeg to JPEG, png to PNG, webp to WEBP, bmp to BMP,
tif/tiff to TIFF, anything else to PNG. -/
def formatOfExt (ext : List Char) : String :=
  if ext = "jpg".toList then "JPEG"
  else if ext = "jpeg".toList then "JPEG"
  else if ext = "png".toList then "PNG"
  else if ext = "webp".toList then "WEBP"
  else if ext = "bmp".toList then "BMP"
  else if ext = "tif".toList then "TIFF"
  else if ext = "tiff".toList then "TIFF"
  else "PNG"

/-- Embeds _infer_format_from_name: the extension is the lower-cased text
after the last dot (empty if the name has no dot), looked up in the
extension table with default "PNG". -/
def infer_format_from_name (name : List Char) : String :=
  formatOfExt (extOf name)

/-- Python str.strip(): drop whitespace from both ends. -/
def stripEnds (l : List Char) : List Char :=
  ((l.dropWhile Char.isWhitespace).reverse.dropWhile Char.isWhitespace).reverse

/-- Embeds _safe_name: name.replace("/", "_").replace("\\", "_").strip(). -/
def safe_name (name : List Char) : List Char :=
  stripEnds (name.map (fun c => if c = '/' ∨ c = '\\' then '_' else c))

/-- Python name.rsplit(".", 1)[0]: everything before the last dot
(meaningful when the name contains a dot). -/
def beforeLastDot (name : List Char) : List Char :=
  ((name.reverse.dropWhile (fun c => ¬ c = '.')).drop 1).reverse

/-- The archive-entry extension chosen in the batch loop:
ext = (fmt.lower() if fmt != "JPEG" else "jpg"). -/
def extToken (fmt : String) : List Char :=
  if fmt = "JPEG" then "jpg".toList else fmt.toList.map Char.toLower

/-- The base name computed in the batch loop:
base = _safe_name(f.name.rsplit(".", 1)[0]) if "." in f.name else _safe_name(f.name). -/
def baseOf (name : List Char) : List Char :=
  if '.' ∈ name then safe_name (beforeLastDot name) else safe_name name

/-- The archive entry name of the batch loop, arcname = f-string
base_PCTpct.EXT with PCT the decimal percentage and EXT from extToken. -/
def arcnameFor (name : List Char) (pct : Nat) : List Char :=
  baseOf name ++ ('_' :: (Nat.repr pct).toList) ++ "pct.".toList
    ++ extToken (infer_format_from_name name)

/-- An uploaded file as the batch loop sees it: its filename and whether
the decode-resize-encode try block succeeds on it. -/
structure UploadFile where
  name : List Char
  ok : Bool
deriving DecidableEq

/-- Embeds the batch processing loop: per file, on success one archive
entry named by arcnameFor is written; on any exception the error counter
is incremented and the loop continues with the next file. Returns the
archive entry names in input order and the final error_count. -/
def processBatch (pct : Nat) : List UploadFile → List (List Char) × Nat
  | [] => ([], 0)
  | f :: fs =>
    let r := processBatch pct fs
    if f.ok then (arcnameFor f.name pct :: r.1, r.2) else (r.1, r.2 + 1)

/-- The JPEG mode gate of the batch loop: resized.mode in ("RGBA", "LA", "P"). -/
def jpegNeedsConvert (mode : String) : Bool :=
  mode = "RGBA" ∨ mode = "LA" ∨ mode = "P"

/-- The mode actually encoded by the batch loop for a given target format:
converted to "RGB" exactly when the format is JPEG and the gate holds. -/
def encodedMode (fmt mode : String) : String :=
  if fmt = "JPEG" ∧ jpegNeedsConvert mode then "RGB" else mode

/-! ## PDF Resizer: pages/(2) PDF Resizer.py, pypdf pipeline -/

/-- Embeds _downscale_if_needed on the dimension level. Returns the new
size and the did-downscale flag. int(w * scale) with
scale = max_side / long_side is the exact rational floor
w * maxSide / long, i.e. Nat division. -/
def downscale_if_needed (downscale : Bool) (maxSide w h : Nat) :
    (Nat × Nat) × Bool :=
  if ¬ downscale then ((w, h), false)
  else
    let long := max w h
    if long ≤ maxSide then ((w, h), false)
    else ((max 1 (w * maxSide / long), max 1 (h * maxSide / long)), true)

/-- An embedded PDF image as the page loop sees it: its pixel size,
whether obtaining/decoding the PIL image (and its mode conversion)
succeeds, and whether img.replace succeeds. -/
structure EmbImage where
  w : Nat
  h : Nat
  decodeOk : Bool
  replaceOk : Bool
deriving DecidableEq

/-- The counter triple of the pipeline. -/
structure Stats where
  total : Nat
  replaced : Nat
  downscaled : Nat
deriving DecidableEq

/-- Embeds the per-image body of the page loop: images_total += 1 happens
before the try block; inside it, a decode failure skips everything, a
downscale increments images_downscaled, and only then img.replace runs:
if it fails the exception is swallowed (images_replaced untouched, the
original bytes stay), otherwise images_replaced += 1. The second
component is the new size written into the page (none = original bytes
left in place). -/
def processEmbImage (downscale : Bool) (maxSide : Nat) (s : Stats)
    (img : EmbImage) : Stats × Option (Nat × Nat) :=
  let s1 := Stats.mk (s.total + 1) s.replaced s.downscaled
  if ¬ img.decodeOk then (s1, none)
  else
    let r := downscale_if_needed downscale maxSide img.w img.h
    let s2 :=
      if r.2 then Stats.mk s1.total s1.replaced (s1.downscaled + 1) else s1
    if ¬ img.replaceOk then (s2, none)
    else (Stats.mk s2.total (s2.replaced + 1) s2.downscaled, some r.1)

/-- The page loop over a flat list of embedded images: state-passing fold
of processEmbImage, collecting per-image replacement outcomes in order. -/
def processImages (downscale : Bool) (maxSide : Nat) (s : Stats) :
    List EmbImage → Stats × List (Option (Nat × Nat))
  | [] => (s, [])
  | img :: rest =>
    let r := processEmbImage downscale maxSide s img
    let rr := processImages downscale maxSide r.1 rest
    (rr.1, r.2 :: rr.2)

/-- Embeds the statistics line
pct = (out_kb / in_size_kb - 1.0) * 100 if in_size_kb else 0
with in_size_kb = inBytes / 1024 and out_kb = outBytes / 1024, computed
exactly over Q. -/
def deltaPct (inBytes outBytes : Nat) : ℚ :=
  if (inBytes : ℚ) / 1024 ≠ 0
  then ((outBytes : ℚ) / 1024 / ((inBytes : ℚ) / 1024) - 1) * 100
  else 0

/-! ## Spec-side definitions used to compare against the code -/

/-- Modelled from the spec: the ResizeUnit error condition, fails with
InvalidSpec if pct outside (0,100]; otherwise resizes as the code does.
No such check exists in the source. -/
def specCheckedResize (w h pct : Nat) : Except String (Nat × Nat) :=
  if 0 < pct ∧ pct ≤ 100 then Except.ok (resize_image w h pct)
  else Except.error "InvalidSpec"

/-- Modelled from the spec: the claimed max-dimension formula with
rounding, max(1, round(w * maxSide / long)), using Mathlib round. -/
def specRoundedDim (maxSide w long : Nat) : ℤ :=
  max 1 (round ((w : ℚ) * maxSide / long))

/-- Modelled from the spec: sanitizedBaseName with path separators
stripped (removed), extension removed, surrounding whitespace stripped. -/
def specStrippedBase (name : List Char) : List Char :=
  stripEnds (((if '.' ∈ name then beforeLastDot name else name)).filter
    (fun c => ¬ (c = '/' ∨ c = '\\')))

/-- Modelled from the spec: the claimed archive entry name with path
separators removed rather than replaced. -/
def specStrippedArcname (name : List Char) (pct : Nat) : List Char :=
  specStrippedBase name ++ ('_' :: (Nat.repr pct).toList) ++ "pct.".toList
    ++ extToken (infer_format_from_name name)

/-- The amended sanitized base: extension removed, path separators
replaced by underscores, whitespace stripped from both ends. -/
def amendedBase (name : List Char) : List Char :=
  stripEnds (((if '.' ∈ name then beforeLastDot name else name)).map
    (fun c => if c = '/' ∨ c = '\\' then '_' else c))

/-- The PIL raster modes (Pillow's documented mode list). -/
def pilModes : List String :=
  ["1", "L", "P", "RGB", "RGBA", "CMYK", "YCbCr", "LAB", "HSV", "I", "F",
   "LA", "PA", "RGBX", "RGBa", "La"]

/-- PIL modes carrying an alpha channel (plain or premultiplied). -/
def modeHasAlpha (mode : String) : Bool :=
  mode = "RGBA" ∨ mode = "RGBa" ∨ mode = "LA" ∨ mode = "La" ∨ mode = "PA"

/-- PIL palette-based modes. -/
def modeIsPaletted (mode : String) : Bool :=
  mode = "P" ∨ mode = "PA"

/-- The seven keys of the extension dictionary of
_infer_format_from_name. -/
def keyExts : List (List Char) :=
  ["jpg".toList, "jpeg".toList, "png".toList, "webp".toList,
   "bmp".toList, "tif".toList, "tiff".toList]

/-! String lemmas -/

theorem char_toNat_ofNat {n : Nat} (h : n.isValidChar) :
    (Char.ofNat n).toNat = n := by
  simp [Char.ofNat, dif_pos h, Char.ofNatAux, Char.toNat, UInt32.toNat,
    BitVec.toNat_ofNatLt]

theorem toLower_toNat_of_upper {c : Char}
    (h : 65 ≤ c.toNat ∧ c.toNat ≤ 90) :
    (Char.toLower c).toNat = c.toNat + 32 := by
  have hv : (c.toNat + 32).isValidChar := by
    left
    omega
  simp only [Char.toLower, if_pos h]
  exact char_toNat_ofNat hv

theorem toLower_of_not_upper {c : Char}
    (h : ¬ (65 ≤ c.toNat ∧ c.toNat ≤ 90)) : Char.toLower c = c := by
  simp only [Char.toLower, if_neg h]

theorem toLower_eq_dot {c : Char} : Char.toLower c = '.' ↔ c = '.' := by
  constructor
  · intro hc
    by_cases h : 65 ≤ c.toNat ∧ c.toNat ≤ 90
    · have h1 := toLower_toNat_of_upper h
      rw [hc] at h1
      have h2 : ('.').toNat = 46 := rfl
      omega
    · rwa [toLower_of_not_upper h] at hc
  · intro hc
    subst hc
    rfl

theorem toLower_idem (c : Char) :
    Char.toLower (Char.toLower c) = Char.toLower c := by
  by_cases h : 65 ≤ c.toNat ∧ c.toNat ≤ 90
  · have h1 := toLower_toNat_of_upper h
    apply toLower_of_not_upper
    omega
  · rw [toLower_of_not_upper h, toLower_of_not_upper h]

theorem pySplit_ne_nil (sep : Char) (l : List Char) : pySplit sep l ≠ [] := by
  cases l with
  | nil => simp [pySplit]
  | cons c cs =>
    simp only [pySplit]
    cases h : pySplit sep cs with
    | nil => simp
    | cons s rest =>
      by_cases hc : c = sep <;> simp [hc]

theorem pySplit_cons_eq {sep : Char} {cs s : List Char}
    {rest : List (List Char)} (c : Char) (h : pySplit sep cs = s :: rest) :
    pySplit sep (c :: cs) =
      if c = sep then [] :: s :: rest else (c :: s) :: rest := by
  simp only [pySplit, h]

theorem pySplit_of_not_mem {sep : Char} {l : List Char} (h : sep ∉ l) :
    pySplit sep l = [l] := by
  induction l with
  | nil => rfl
  | cons c cs ih =>
    have hc : ¬ c = sep := fun e => h (e ▸ List.mem_cons_self c cs)
    have hcs : sep ∉ cs := fun m => h (List.mem_cons_of_mem _ m)
    rw [pySplit_cons_eq c (ih hcs), if_neg hc]

theorem getLastD_irrel {α : Type} {l : List α} (h : l ≠ []) (d d' : α) :
    l.getLastD d = l.getLastD d' := by
  cases l with
  | nil => exact absurd rfl h
  | cons x xs => rw [List.getLastD_cons, List.getLastD_cons]

theorem pySplit_append_sep_len (sep : Char) (l r : List Char) :
    2 ≤ (pySplit sep (l ++ sep :: r)).length := by
  induction l with
  | nil =>
    cases h : pySplit sep r with
    | nil => exact absurd h (pySplit_ne_nil sep r)
    | cons s rest =>
      rw [List.nil_append, pySplit_cons_eq sep h, if_pos rfl]
      simp
  | cons c l ih =>
    cases h : pySplit sep (l ++ sep :: r) with
    | nil => exact absurd h (pySplit_ne_nil sep _)
    | cons s rest =>
      rw [h] at ih
      rw [List.cons_append, pySplit_cons_eq c h]
      by_cases hc : c = sep
      · rw [if_pos hc]
        simp
      · rw [if_neg hc]
        simp at ih ⊢
        omega

theorem lastSegment_append (sep : Char) (l r : List Char) :
    lastSegment sep (l ++ sep :: r) = lastSegment sep r := by
  induction l with
  | nil =>
    cases h : pySplit sep r with
    | nil => exact absurd h (pySplit_ne_nil sep r)
    | cons s rest =>
      rw [lastSegment, List.nil_append, pySplit_cons_eq sep h, if_pos rfl,
        List.getLastD_cons, lastSegment, h, List.getLastD_cons]
  | cons c l ih =>
    cases h : pySplit sep (l ++ sep :: r) with
    | nil => exact absurd h (pySplit_ne_nil sep _)
    | cons s rest =>
      have hlen := pySplit_append_sep_len sep l r
      rw [h] at hlen
      have hrest : rest ≠ [] := by
        intro he
        rw [he] at hlen
        simp at hlen
      rw [lastSegment, h, List.getLastD_cons] at ih
      rw [lastSegment, List.cons_append, pySplit_cons_eq c h]
      by_cases hc : c = sep
      · rw [if_pos hc, List.getLastD_cons, List.getLastD_cons]
        exact ih
      · rw [if_neg hc, List.getLastD_cons, getLastD_irrel hrest (c :: s) s]
        exact ih

theorem lastSegment_no_sep {sep : Char} {l : List Char} (h : sep ∉ l) :
    lastSegment sep l = l := by
  rw [lastSegment, pySplit_of_not_mem h]
  rfl

theorem pySplit_map {f : Char → Char} {sep : Char}
    (hf : ∀ c, f c = sep ↔ c = sep) (l : List Char) :
    pySplit sep (l.map f) = (pySplit sep l).map (List.map f) := by
  induction l with
  | nil => rfl
  | cons c cs ih =>
    cases h : pySplit sep cs with
    | nil => exact absurd h (pySplit_ne_nil sep cs)
    | cons s rest =>
      rw [h, List.map_cons] at ih
      rw [List.map_cons, pySplit_cons_eq (f c) ih, pySplit_cons_eq c h]
      by_cases hc : c = sep
      · have hfc : f c = sep := (hf c).mpr hc
        rw [if_pos hc, if_pos hfc]
        simp
      · have hfc : ¬ f c = sep := fun e => hc ((hf c).mp e)
        rw [if_neg hc, if_neg hfc]
        simp

theorem lastSegment_map {f : Char → Char} {sep : Char}
    (hf : ∀ c, f c = sep ↔ c = sep) (l : List Char) :
    lastSegment sep (l.map f) = (lastSegment sep l).map f := by
  rw [lastSegment, lastSegment, pySplit_map hf]
  cases h : pySplit sep l with
  | nil => exact absurd h (pySplit_ne_nil sep l)
  | cons s rest =>
    rw [List.map_cons, List.getLastD_cons, List.getLastD_cons]
    exact List.getLastD_map (List.map f) rest s

theorem map_toLower_toLower (l : List Char) :
    (l.map Char.toLower).map Char.toLower = l.map Char.toLower := by
  induction l with
  | nil => rfl
  | cons c cs ih => simp [toLower_idem, ih]

theorem mem_dot_map_toLower {name : List Char} :
    '.' ∈ name.map Char.toLower ↔ '.' ∈ name := by
  rw [List.mem_map]
  constructor
  · rintro ⟨c, hc, he⟩
    rw [toLower_eq_dot.mp he] at hc
    exact hc
  · intro h
    exact ⟨'.', h, rfl⟩

theorem extOf_map_toLower (name : List Char) :
    extOf (name.map Char.toLower) = extOf name := by
  rw [extOf, extOf]
  by_cases hd : '.' ∈ name
  · rw [if_pos hd, if_pos (mem_dot_map_toLower.mpr hd),
      lastSegment_map (fun c => toLower_eq_dot), map_toLower_toLower]
  · rw [if_neg hd, if_neg (fun m => hd (mem_dot_map_toLower.mp m))]

theorem extOf_append_ext (base r : List Char) (hr : '.' ∉ r) :
    extOf (base ++ '.' :: r) = r.map Char.toLower := by
  rw [extOf, if_pos (by simp), lastSegment_append, lastSegment_no_sep hr]

theorem formatOfExt_total (ext : List Char) :
    formatOfExt ext ∈ ["JPEG", "PNG", "WEBP", "BMP", "TIFF"] := by
  rw [formatOfExt]
  split_ifs <;> simp

theorem formatOfExt_default {ext : List Char} (h : ext ∉ keyExts) :
    formatOfExt ext = "PNG" := by
  rw [formatOfExt]
  split_ifs with h1 h2 h3 h4 h5 h6 h7
  · exact absurd (by rw [h1]; simp [keyExts]) h
  · exact absurd (by rw [h2]; simp [keyExts]) h
  · rfl
  · exact absurd (by rw [h4]; simp [keyExts]) h
  · exact absurd (by rw [h5]; simp [keyExts]) h
  · exact absurd (by rw [h6]; simp [keyExts]) h
  · exact absurd (by rw [h7]; simp [keyExts]) h
  · rfl

/-- Claim C1: for every image with positive width w and height h and
every percentage pct in 1..100, percentage-mode resize produces
dimensions max(1, floor(w*pct/100)) and max(1, floor(h*pct/100)), and
both resulting dimensions are at least 1. -/
theorem C1_percentage_resize (w h pct : Nat) (hw : 0 < w) (hh : 0 < h)
    (hp1 : 1 ≤ pct) (hp2 : pct ≤ 100) :
    resize_image w h pct
      = (max 1 (Nat.floor ((w : ℚ) * pct / 100)),
         max 1 (Nat.floor ((h : ℚ) * pct / 100))) ∧
    1 ≤ (resize_image w h pct).1 ∧ 1 ≤ (resize_image w h pct).2 := by
  have e1 : Nat.floor ((w : ℚ) * pct / 100) = w * pct / 100 := by
    rw [show ((w : ℚ) * pct) = (((w * pct : ℕ) : ℚ)) by push_cast; ring,
      show ((100 : ℚ)) = (((100 : ℕ) : ℚ)) by norm_num]
    exact Nat.floor_div_eq_div (w * pct) 100
  have e2 : Nat.floor ((h : ℚ) * pct / 100) = h * pct / 100 := by
    rw [show ((h : ℚ) * pct) = (((h * pct : ℕ) : ℚ)) by push_cast; ring,
      show ((100 : ℚ)) = (((100 : ℕ) : ℚ)) by norm_num]
    exact Nat.floor_div_eq_div (h * pct) 100
  refine ⟨by rw [resize_image, e1, e2], le_max_left _ _, le_max_left _ _⟩

/-- Witness for C1 at a 1000 by 500 image and pct = 50. -/
theorem C1_witness :
    resize_image 1000 500 50
      = (max 1 (Nat.floor ((1000 : ℚ) * 50 / 100)),
         max 1 (Nat.floor ((500 : ℚ) * 50 / 100))) :=
  (C1_percentage_resize 1000 500 50 (by decide) (by decide) (by decide)
    (by decide)).1

/-- Claim C9: the percent-delta statistic equals
(outputSize/inputSize - 1) * 100 when the input size is nonzero and 0
when it is zero; the guarded branch never divides by zero. -/
theorem C9_delta_pct (inB outB : Nat) :
    (inB ≠ 0 → deltaPct inB outB = ((outB : ℚ) / (inB : ℚ) - 1) * 100) ∧
    (inB = 0 → deltaPct inB outB = 0) := by
  constructor
  · intro h
    have hq : ((inB : ℚ)) ≠ 0 := Nat.cast_ne_zero.mpr h
    have hg : ((inB : ℚ)) / 1024 ≠ 0 := div_ne_zero hq (by norm_num)
    have hk : ((outB : ℚ) / 1024) / ((inB : ℚ) / 1024) = (outB : ℚ) / inB := by
      field_simp
    rw [deltaPct, if_pos hg, hk]
  · intro h
    subst h
    rw [deltaPct]
    norm_num

/-- Witness for C9 at input sizes 200 and 0. -/
theorem C9_witness :
    deltaPct 200 100 = ((100 : ℚ) / 200 - 1) * 100 ∧ deltaPct 0 7 = 0 :=
  ⟨(C9_delta_pct 200 100).1 (by decide), (C9_delta_pct 0 7).2 rfl⟩

/-- Claim C6: resolveFormat is total, case-insensitive on the
extension, maps jpg/jpeg to JPEG, png to PNG, webp to WEBP, bmp to BMP,
tif/tiff to TIFF, and returns PNG for any other or missing extension. -/
theorem C6_resolve_format (base : List Char) :
    (infer_format_from_name (base ++ ".jpg".toList) = "JPEG" ∧
     infer_format_from_name (base ++ ".jpeg".toList) = "JPEG" ∧
     infer_format_from_name (base ++ ".png".toList) = "PNG" ∧
     infer_format_from_name (base ++ ".webp".toList) = "WEBP" ∧
     infer_format_from_name (base ++ ".bmp".toList) = "BMP" ∧
     infer_format_from_name (base ++ ".tif".toList) = "TIFF" ∧
     infer_format_from_name (base ++ ".tiff".toList) = "TIFF") ∧
    (∀ name : List Char,
      infer_format_from_name (name.map Char.toLower)
        = infer_format_from_name name ∧
      ('.' ∉ name → infer_format_from_name name = "PNG") ∧
      (extOf name ∉ keyExts → infer_format_from_name name = "PNG") ∧
      infer_format_from_name name ∈ ["JPEG", "PNG", "WEBP", "BMP", "TIFF"]) := by
  constructor
  · refine ⟨?_, ?_, ?_, ?_, ?_, ?_, ?_⟩
    · show infer_format_from_name (base ++ '.' :: "jpg".toList) = "JPEG"
      rw [infer_format_from_name, extOf_append_ext base _ (by decide)]
      rfl
    · show infer_format_from_name (base ++ '.' :: "jpeg".toList) = "JPEG"
      rw [infer_format_from_name, extOf_append_ext base _ (by decide)]
      rfl
    · show infer_format_from_name (base ++ '.' :: "png".toList) = "PNG"
      rw [infer_format_from_name, extOf_append_ext base _ (by decide)]
      rfl
    · show infer_format_from_name (base ++ '.' :: "webp".toList) = "WEBP"
      rw [infer_format_from_name, extOf_append_ext base _ (by decide)]
      rfl
    · show infer_format_from_name (base ++ '.' :: "bmp".toList) = "BMP"
      rw [infer_format_from_name, extOf_append_ext base _ (by decide)]
      rfl
    · show infer_format_from_name (base ++ '.' :: "tif".toList) = "TIFF"
      rw [infer_format_from_name, extOf_append_ext base _ (by decide)]
      rfl
    · show infer_format_from_name (base ++ '.' :: "tiff".toList) = "TIFF"
      rw [infer_format_from_name, extOf_append_ext base _ (by decide)]
      rfl
  · intro name
    refine ⟨congrArg formatOfExt (extOf_map_toLower name), ?_, ?_,
      formatOfExt_total _⟩
    · intro h
      rw [infer_format_from_name, extOf, if_neg h]
      rfl
    · intro h
      exact formatOfExt_default h

/-- Witness for C6 at the names photo.jpg and README. -/
theorem C6_witness :
    infer_format_from_name ("photo".toList ++ ".jpg".toList) = "JPEG" ∧
    infer_format_from_name "README".toList = "PNG" :=
  ⟨(C6_resolve_format "photo".toList).1.1,
   ((C6_resolve_format "x".toList).2 "README".toList).2.1 (by decide)⟩

/-- Counterexample to C2 as stated: at a 1006 by 2048 image with bound
512 the code floors 1006 * 512 / 2048 = 251.5 down to width 251, while
the claimed rounding gives 252. -/
theorem C2_counterexample :
    downscale_if_needed true 512 1006 2048 = ((251, 512), true) ∧
    specRoundedDim 512 1006 2048 = 252 ∧ ((251 : ℤ) ≠ 252) := by
  refine ⟨by decide, ?_, by decide⟩
  rw [specRoundedDim]
  norm_num [round_eq]

/-- Claim C2 as amended: when the longer side exceeds the bound, the
code computes scale = maxSide / max(w, h) and floors (truncates) w *
scale and h * scale, clamping to minimum 1; the resulting longer side
equals maxSide exactly. -/
theorem C2_max_dimension_resize (w h maxSide : Nat) (hw : 1 ≤ w)
    (hh : 1 ≤ h) (hm : 1 ≤ maxSide) (hgt : maxSide < max w h) :
    downscale_if_needed true maxSide w h
      = ((max 1 (w * maxSide / max w h), max 1 (h * maxSide / max w h)),
         true) ∧
    w * maxSide / max w h
      = Nat.floor ((w : ℚ) * ((maxSide : ℚ) / ((max w h : ℕ) : ℚ))) ∧
    h * maxSide / max w h
      = Nat.floor ((h : ℚ) * ((maxSide : ℚ) / ((max w h : ℕ) : ℚ))) ∧
    max (downscale_if_needed true maxSide w h).1.1
        (downscale_if_needed true maxSide w h).1.2 = maxSide := by
  have hnot : ¬ (max w h ≤ maxSide) := not_le.mpr hgt
  have heq : downscale_if_needed true maxSide w h
      = ((max 1 (w * maxSide / max w h), max 1 (h * maxSide / max w h)),
         true) := by
    rw [downscale_if_needed]
    simp [hnot]
  have hfl : ∀ a : Nat,
      a * maxSide / max w h
        = Nat.floor ((a : ℚ) * ((maxSide : ℚ) / ((max w h : ℕ) : ℚ))) := by
    intro a
    rw [show ((a : ℚ) * ((maxSide : ℚ) / ((max w h : ℕ) : ℚ)))
        = (((a * maxSide : ℕ) : ℚ)) / (((max w h : ℕ) : ℚ)) by
      push_cast
      ring]
    exact (Nat.floor_div_eq_div (a * maxSide) (max w h)).symm
  refine ⟨heq, hfl w, hfl h, ?_⟩
  rw [heq]
  rcases Nat.le_total w h with hwh | hwh
  · have hmax : max w h = h := Nat.max_eq_right hwh
    have h0 : 0 < h := hh
    have hH : h * maxSide / h = maxSide := by
      rw [Nat.mul_div_cancel_left maxSide h0]
    have hW : w * maxSide / h ≤ maxSide := by
      calc w * maxSide / h ≤ h * maxSide / h :=
            Nat.div_le_div_right (Nat.mul_le_mul_right maxSide hwh)
        _ = maxSide := hH
    rw [hmax]
    simp only [hH]
    rw [Nat.max_eq_right hm]
    exact Nat.max_eq_right (max_le hm hW)
  · have hmax : max w h = w := Nat.max_eq_left hwh
    have h0 : 0 < w := hw
    have hW : w * maxSide / w = maxSide := by
      rw [Nat.mul_div_cancel_left maxSide h0]
    have hH : h * maxSide / w ≤ maxSide := by
      calc h * maxSide / w ≤ w * maxSide / w :=
            Nat.div_le_div_right (Nat.mul_le_mul_right maxSide hwh)
        _ = maxSide := hW
    rw [hmax]
    simp only [hW]
    rw [Nat.max_eq_right hm]
    exact Nat.max_eq_left (max_le hm hH)

/-- Witness for C2 at a 3000 by 4000 image and bound 2048. -/
theorem C2_witness :
    max (downscale_if_needed true 2048 3000 4000).1.1
        (downscale_if_needed true 2048 3000 4000).1.2 = 2048 :=
  (C2_max_dimension_resize 3000 4000 2048 (by decide) (by decide) (by decide)
    (by decide)).2.2.2

theorem processEmbImage_total (d : Bool) (maxSide : Nat) (s : Stats)
    (img : EmbImage) :
    (processEmbImage d maxSide s img).1.total = s.total + 1 := by
  rcases img with ⟨w, h, dok, rok⟩
  rw [processEmbImage]
  cases dok with
  | false => rfl
  | true =>
    cases hr : (downscale_if_needed d maxSide w h).2 <;>
      cases rok <;> simp [hr]

theorem processImages_shape (d : Bool) (maxSide : Nat) (s : Stats)
    (imgs : List EmbImage) :
    (processImages d maxSide s imgs).1.total = s.total + imgs.length ∧
    (processImages d maxSide s imgs).2.length = imgs.length := by
  induction imgs generalizing s with
  | nil => simp [processImages]
  | cons img rest ih =>
    rw [processImages]
    have h1 := processEmbImage_total d maxSide s img
    have h2 := ih (processEmbImage d maxSide s img).1
    refine ⟨?_, ?_⟩
    · rw [h2.1, h1]
      simp
      omega
    · simp [h2.2]

/-- Counterexample to C3 as stated: an image whose re-encode fails
after a successful downscale still increments imagesDownscaled. -/
theorem C3_counterexample :
    processEmbImage true 2048 (Stats.mk 0 0 0)
        (EmbImage.mk 4000 3000 true false)
      = (Stats.mk 1 0 1, none) := by decide

/-- Claim C3 as amended: imagesTotal increments once per image
regardless of success; a decode failure leaves every other counter and
the original bytes unchanged; a re-encode failure leaves imagesReplaced
and the original bytes unchanged but imagesDownscaled has already been
incremented when the downscale step fired; the page loop keeps
processing all remaining images. -/
theorem C3_per_image_failure (d : Bool) (maxSide : Nat) (s : Stats)
    (img : EmbImage) (imgs : List EmbImage) :
    (processEmbImage d maxSide s img).1.total = s.total + 1 ∧
    (img.decodeOk = false →
      processEmbImage d maxSide s img
        = (Stats.mk (s.total + 1) s.replaced s.downscaled, none)) ∧
    (img.decodeOk = true → img.replaceOk = false →
      (processEmbImage d maxSide s img).1.replaced = s.replaced ∧
      (processEmbImage d maxSide s img).2 = none ∧
      (processEmbImage d maxSide s img).1.downscaled
        = s.downscaled
          + (if (downscale_if_needed d maxSide img.w img.h).2 then 1
             else 0)) ∧
    ((processImages d maxSide s imgs).1.total = s.total + imgs.length ∧
     (processImages d maxSide s imgs).2.length = imgs.length) := by
  refine ⟨processEmbImage_total d maxSide s img, ?_, ?_,
    processImages_shape d maxSide s imgs⟩
  · intro hdec
    rcases img with ⟨w, h, dok, rok⟩
    subst hdec
    rfl
  · intro hdec hrep
    rcases img with ⟨w, h, dok, rok⟩
    subst hdec
    subst hrep
    rw [processEmbImage]
    cases hr : (downscale_if_needed d maxSide w h).2 <;> simp [hr]

/-- Witness for C3 on concrete failing images. -/
theorem C3_witness :
    (processEmbImage true 2048 (Stats.mk 5 2 1)
        (EmbImage.mk 4000 3000 true false)).1.replaced = 2 ∧
    (processEmbImage true 2048 (Stats.mk 5 2 1)
        (EmbImage.mk 4000 3000 true false)).2 = none ∧
    processEmbImage true 2048 (Stats.mk 5 2 1)
        (EmbImage.mk 4000 3000 false true)
      = (Stats.mk 6 2 1, none) := by
  have h := C3_per_image_failure true 2048 (Stats.mk 5 2 1)
    (EmbImage.mk 4000 3000 true false) []
  have h2 := C3_per_image_failure true 2048 (Stats.mk 5 2 1)
    (EmbImage.mk 4000 3000 false true) []
  exact ⟨(h.2.2.1 rfl rfl).1, (h.2.2.1 rfl rfl).2.1, h2.2.1 rfl⟩

/-- Claim C4: when the longer side is at most the bound, max-dimension
resize returns the image unchanged, reports no resize, and the
imagesDownscaled counter is untouched. -/
theorem C4_noop_below_bound (w h maxSide : Nat) (s : Stats) (d r : Bool)
    (hle : max w h ≤ maxSide) :
    downscale_if_needed true maxSide w h = ((w, h), false) ∧
    (processEmbImage true maxSide s (EmbImage.mk w h d r)).1.downscaled
      = s.downscaled := by
  have h1 : downscale_if_needed true maxSide w h = ((w, h), false) := by
    rw [downscale_if_needed]
    simp [hle]
  refine ⟨h1, ?_⟩
  rw [processEmbImage]
  cases d <;> cases r <;> simp [h1]

/-- Witness for C4 at a 100 by 50 image and bound 2048. -/
theorem C4_witness :
    downscale_if_needed true 2048 100 50 = ((100, 50), false) ∧
    (processEmbImage true 2048 (Stats.mk 3 2 1)
        (EmbImage.mk 100 50 true true)).1.downscaled = 1 :=
  C4_noop_below_bound 100 50 2048 (Stats.mk 3 2 1) true true (by decide)

/-- Claim C5: a batch of N files of which K fail produces exactly N-K
archive entries and reports exactly K failures; one failure never
aborts the rest of the batch. -/
theorem C5_batch_isolation (pct : Nat) (files : List UploadFile) :
    (processBatch pct files).1.length
      = files.countP (fun f => f.ok) ∧
    (processBatch pct files).2 = files.countP (fun f => !f.ok) ∧
    (processBatch pct files).1.length + (processBatch pct files).2
      = files.length := by
  induction files with
  | nil => simp [processBatch]
  | cons f fs ih =>
    cases hf : f.ok <;>
      simp [processBatch, hf, List.countP_cons, ih.1, ih.2.1] <;>
      omega

/-- Counterexample to C7 as stated: for the name a/b.png the code
replaces the path separator by an underscore, giving a_b_50pct.png,
while stripping separators out would give ab_50pct.png. -/
theorem C7_counterexample :
    arcnameFor "a/b.png".toList 50 = "a_b_50pct.png".toList ∧
    specStrippedArcname "a/b.png".toList 50 = "ab_50pct.png".toList ∧
    arcnameFor "a/b.png".toList 50
      ≠ specStrippedArcname "a/b.png".toList 50 := by
  refine ⟨by decide, by decide, by decide⟩

/-- Claim C7 as amended: every archive entry is named
base_PCTpct.EXT where EXT is jpg for JPEG and the lower-cased format
name otherwise, and base is the filename with its extension removed,
path separators replaced by underscores, and surrounding whitespace
stripped. -/
theorem C7_arcname (name : List Char) (pct : Nat)
    (files : List UploadFile) :
    arcnameFor name pct
      = amendedBase name ++ ('_' :: (Nat.repr pct).toList)
        ++ "pct.".toList ++ extToken (infer_format_from_name name) ∧
    (∀ e ∈ (processBatch pct files).1,
      ∃ f ∈ files, f.ok = true ∧ e = arcnameFor f.name pct) := by
  constructor
  · rw [arcnameFor, baseOf, amendedBase]
    by_cases hd : '.' ∈ name
    · rw [if_pos hd, if_pos hd]
      rfl
    · rw [if_neg hd, if_neg hd]
      rfl
  · induction files with
    | nil =>
      intro e he
      simp [processBatch] at he
    | cons f fs ih =>
      intro e he
      cases hf : f.ok
      · rw [processBatch] at he
        simp only [hf] at he
        rcases ih e he with ⟨g, hg, hgo, hge⟩
        exact ⟨g, List.mem_cons_of_mem f hg, hgo, hge⟩
      · rw [processBatch] at he
        simp only [hf, if_pos] at he
        rcases List.mem_cons.mp he with he1 | he2
        · exact ⟨f, List.mem_cons_self f fs, hf, he1⟩
        · rcases ih e he2 with ⟨g, hg, hgo, hge⟩
          exact ⟨g, List.mem_cons_of_mem f hg, hgo, hge⟩

/-- Witness for C7 at the name a/b.png with pct = 50. -/
theorem C7_witness :
    arcnameFor "a/b.png".toList 50
      = amendedBase "a/b.png".toList ++ ('_' :: (Nat.repr 50).toList)
        ++ "pct.".toList
        ++ extToken (infer_format_from_name "a/b.png".toList) ∧
    (∃ f ∈ [UploadFile.mk "x.png".toList true],
      f.ok = true ∧
      arcnameFor "x.png".toList 50 = arcnameFor f.name 50) := by
  have h := C7_arcname "a/b.png".toList 50 [UploadFile.mk "x.png".toList true]
  exact ⟨h.1, h.2 (arcnameFor "x.png".toList 50) (by decide)⟩

/-- Counterexample to C8 as stated: the PIL mode PA both carries alpha
and is paletted, yet the gate resized.mode in (RGBA, LA, P) does not
convert it. -/
theorem C8_counterexample :
    "PA" ∈ pilModes ∧ modeHasAlpha "PA" = true ∧
    modeIsPaletted "PA" = true ∧ encodedMode "JPEG" "PA" = "PA" ∧
    ("PA" : String) ≠ "RGB" := by
  refine ⟨by decide, by decide, by decide, rfl, by decide⟩

/-- Claim C8 as amended: before JPEG encoding the conversion to RGB
happens exactly when the resized mode is RGBA, LA or P; every mode the
gate converts indeed carries alpha or is paletted, but alpha modes
outside the gate (RGBa, La, PA) are left unconverted. -/
theorem C8_jpeg_mode_conversion (mode : String) :
    (jpegNeedsConvert mode = true
      ↔ (mode = "RGBA" ∨ mode = "LA" ∨ mode = "P")) ∧
    (jpegNeedsConvert mode = true → encodedMode "JPEG" mode = "RGB") ∧
    (jpegNeedsConvert mode = false → encodedMode "JPEG" mode = mode) ∧
    (jpegNeedsConvert mode = true →
      modeHasAlpha mode = true ∨ modeIsPaletted mode = true) := by
  have hiff : jpegNeedsConvert mode = true
      ↔ (mode = "RGBA" ∨ mode = "LA" ∨ mode = "P") := by
    rw [jpegNeedsConvert]
    exact decide_eq_true_iff
  refine ⟨hiff, ?_, ?_, ?_⟩
  · intro hc
    rw [encodedMode, if_pos ⟨rfl, hc⟩]
  · intro hc
    rw [encodedMode, if_neg]
    intro hand
    rw [hc] at hand
    simp at hand
  · intro hc
    rcases hiff.mp hc with rfl | rfl | rfl <;>
      simp [modeHasAlpha, modeIsPaletted]

/-- Witness for C8 at the modes RGBA and CMYK. -/
theorem C8_witness :
    encodedMode "JPEG" "RGBA" = "RGB" ∧ encodedMode "JPEG" "CMYK" = "CMYK" :=
  ⟨(C8_jpeg_mode_conversion "RGBA").2.1 (by decide),
   (C8_jpeg_mode_conversion "CMYK").2.2.1 (by decide)⟩

/-- Counterexample to C10 as stated: at pct = 0 and at bound 0 both
resize functions return a value instead of failing, unlike the claimed
InvalidSpec check. -/
theorem C10_counterexample :
    specCheckedResize 100 100 0 = Except.error "InvalidSpec" ∧
    resize_image 100 100 0 = (1, 1) ∧
    downscale_if_needed true 0 100 100 = ((1, 1), true) :=
  ⟨rfl, by decide, by decide⟩

/-- Claim C10 as amended: the resize primitives perform no parameter
validation and never fail; for every percentage and bound, in or out of
range, they return dimensions clamped to at least 1 (or the unchanged
input size). -/
theorem C10_no_validation (w h pct maxSide : Nat) (d : Bool) :
    1 ≤ (resize_image w h pct).1 ∧ 1 ≤ (resize_image w h pct).2 ∧
    ((downscale_if_needed d maxSide w h).1 = (w, h) ∨
     (1 ≤ (downscale_if_needed d maxSide w h).1.1 ∧
      1 ≤ (downscale_if_needed d maxSide w h).1.2)) := by
  refine ⟨le_max_left _ _, le_max_left _ _, ?_⟩
  cases d with
  | false => left; rfl
  | true =>
    by_cases hle : max w h ≤ maxSide
    · left
      simp [downscale_if_needed, hle]
    · right
      constructor <;> simp [downscale_if_needed, hle]

